import Mathlib

set_option maxHeartbeats 1000000

open scoped Matrix

/-! # Verification of the statarb core

Shallow embedding of the repository's core: `KalmanFilterReg`
(src/src/math_model.py) and `Backtester` (src/src/backtester.py), over exact
rational arithmetic.  The z-score standardisation takes a square root, so the
rolling standard deviation and the z-scores live in `ℝ`; everything else is
exact in `ℚ`. -/

/-- State of `KalmanFilterReg` as held in its instance attributes (src/src/math_model.py):
state vector `[beta, alpha]` as `s0, s1`; the 2x2 covariance `P` entrywise;
the 2x2 process-noise matrix `Q` entrywise; scalar measurement noise `r`. -/
structure KalmanFilterReg where
  s0 : ℚ
  s1 : ℚ
  p00 : ℚ
  p01 : ℚ
  p10 : ℚ
  p11 : ℚ
  q00 : ℚ
  q01 : ℚ
  q10 : ℚ
  q11 : ℚ
  r : ℚ

/-- Constructor `KalmanFilterReg.__init__(delta, R)`: `state = zeros(2)`, `P = eye(2)`,
`Q = eye(2) * delta`, `R = R`. -/
def KalmanFilterReg.init (delta R : ℚ) : KalmanFilterReg :=
  ⟨0, 0, 1, 0, 0, 1, delta, 0, 0, delta, R⟩

/-- The innovation variance `S = np.dot(H, np.dot(P, H.T)) + R` computed in
`KalmanFilterReg.update` (src/src/math_model.py), after `P` has been
incremented by `Q`, with `H = [x, 1]`; written out on the entries of
`P + Q`. -/
def KalmanFilterReg.innovVar (kf : KalmanFilterReg) (x : ℚ) : ℚ :=
  x * ((kf.p00 + kf.q00) * x + (kf.p01 + kf.q01) * 1) +
    1 * ((kf.p10 + kf.q10) * x + (kf.p11 + kf.q11) * 1) + kf.r

/-- Method `KalmanFilterReg.update(x, y)` (src/src/math_model.py), entrywise:
`P ← P + Q`; `H = [x, 1]`; `error = y - H·state`; `S = H·P·Hᵗ + R`
(the value `innovVar`); `K = P·Hᵗ / S`; `state ← state + K*error`;
`P ← (I - outer(K, H)) @ P`.  The Python method mutates the filter and
returns `(state[0], state[1], error)`; here it returns the new filter
together with that triple. -/
def KalmanFilterReg.update (kf : KalmanFilterReg) (x y : ℚ) :
    KalmanFilterReg × ℚ × ℚ × ℚ :=
  let a := kf.p00 + kf.q00
  let b := kf.p01 + kf.q01
  let b2 := kf.p10 + kf.q10
  let c := kf.p11 + kf.q11
  let y_pred := x * kf.s0 + 1 * kf.s1
  let error := y - y_pred
  let ph0 := a * x + b * 1
  let ph1 := b2 * x + c * 1
  let S := kf.innovVar x
  let k0 := ph0 / S
  let k1 := ph1 / S
  let s0' := kf.s0 + k0 * error
  let s1' := kf.s1 + k1 * error
  let p00' := (1 - k0 * x) * a + (0 - k0 * 1) * b2
  let p01' := (1 - k0 * x) * b + (0 - k0 * 1) * c
  let p10' := (0 - k1 * x) * a + (1 - k1 * 1) * b2
  let p11' := (0 - k1 * x) * b + (1 - k1 * 1) * c
  (⟨s0', s1', p00', p01', p10', p11', kf.q00, kf.q01, kf.q10, kf.q11, kf.r⟩,
    s0', s1', error)

/-- The state vector of the filter as a Mathlib vector. -/
def KalmanFilterReg.stateVec (kf : KalmanFilterReg) : Fin 2 → ℚ :=
  ![kf.s0, kf.s1]

/-- The covariance `P` of the filter as a Mathlib matrix. -/
def KalmanFilterReg.Pmat (kf : KalmanFilterReg) : Matrix (Fin 2) (Fin 2) ℚ :=
  !![kf.p00, kf.p01; kf.p10, kf.p11]

/-- The process noise `Q` of the filter as a Mathlib matrix. -/
def KalmanFilterReg.Qmat (kf : KalmanFilterReg) : Matrix (Fin 2) (Fin 2) ℚ :=
  !![kf.q00, kf.q01; kf.q10, kf.q11]

/-- The estimator update exactly as the specification's recursion states it,
over Mathlib vectors and matrices: `P` is first incremented by `Q`; with
`H = [x, 1]` the residual is `y - H·state`; the innovation variance is
`S = H·P·Hᵗ + R`; the gain is `K = P·Hᵗ / S`; the state becomes
`state + K·residual`; the covariance becomes `(I - K·H)·P`.  Returns the new
state, the new covariance, and the residual. -/
def specKalmanStep (state : Fin 2 → ℚ) (P Q : Matrix (Fin 2) (Fin 2) ℚ)
    (R x y : ℚ) : (Fin 2 → ℚ) × Matrix (Fin 2) (Fin 2) ℚ × ℚ :=
  let P1 := P + Q
  let H : Fin 2 → ℚ := ![x, 1]
  let residual := y - H ⬝ᵥ state
  let S := H ⬝ᵥ P1.mulVec H + R
  let K : Fin 2 → ℚ := fun i => P1.mulVec H i / S
  let state' := state + residual • K
  let P' := (1 - Matrix.vecMulVec K H) * P1
  (state', P', residual)

/-- Claim C1: `update(x, y)` executes exactly the specified recursive update
(`P ← P + Q`; residual `y - H·state` with `H = [x, 1]`;
`S = H·P·Hᵗ + R`; `K = P·Hᵗ / S`; `state ← state + K·residual`;
`P ← (I - K·H)·P`) and returns `(state[0], state[1], residual)`; the
constructor sets `state = (0, 0)`, `P = I`, `Q = delta·I` and scalar `R`. -/
theorem kalman_update_matches_spec (delta R : ℚ) (kf : KalmanFilterReg)
    (x y : ℚ) :
    ((KalmanFilterReg.init delta R).stateVec = ![0, 0] ∧
      (KalmanFilterReg.init delta R).Pmat = 1 ∧
      (KalmanFilterReg.init delta R).Qmat =
        delta • (1 : Matrix (Fin 2) (Fin 2) ℚ) ∧
      (KalmanFilterReg.init delta R).r = R) ∧
    ((kf.update x y).1.stateVec, (kf.update x y).1.Pmat,
        (kf.update x y).2.2.2) =
      specKalmanStep kf.stateVec kf.Pmat kf.Qmat kf.r x y ∧
    (kf.update x y).2 =
      ((kf.update x y).1.s0, (kf.update x y).1.s1, y - (x * kf.s0 + kf.s1)) := by
  refine ⟨⟨?_, ?_, ?_, rfl⟩, ?_, ?_⟩
  · funext i
    fin_cases i <;> rfl
  · ext i j
    fin_cases i <;> fin_cases j <;>
      simp [KalmanFilterReg.init, KalmanFilterReg.Pmat, Matrix.one_apply]
  · ext i j
    fin_cases i <;> fin_cases j <;>
      simp [KalmanFilterReg.init, KalmanFilterReg.Qmat, Matrix.one_apply]
  · refine Prod.ext ?_ (Prod.ext ?_ ?_)
    · funext i
      fin_cases i <;>
        simp [KalmanFilterReg.update, specKalmanStep, KalmanFilterReg.stateVec,
          KalmanFilterReg.Pmat, KalmanFilterReg.Qmat, KalmanFilterReg.innovVar,
          Matrix.mulVec, Matrix.dotProduct, Fin.sum_univ_two,
          Matrix.vecMulVec_apply, Matrix.vecHead, Matrix.vecTail,
          Matrix.cons_val_zero, Matrix.cons_val_one, Pi.add_apply,
          Pi.smul_apply, smul_eq_mul, div_eq_mul_inv] <;> ring
    · ext i j
      fin_cases i <;> fin_cases j <;>
        simp [KalmanFilterReg.update, specKalmanStep, KalmanFilterReg.stateVec,
          KalmanFilterReg.Pmat, KalmanFilterReg.Qmat, KalmanFilterReg.innovVar,
          Matrix.mul_apply, Matrix.mulVec, Matrix.dotProduct, Fin.sum_univ_two,
          Matrix.vecMulVec_apply, Matrix.one_apply, Matrix.sub_apply,
          Matrix.vecHead, Matrix.vecTail, Matrix.cons_val_zero,
          Matrix.cons_val_one, Pi.add_apply, Pi.smul_apply, smul_eq_mul,
          div_eq_mul_inv] <;> ring
    · simp only [KalmanFilterReg.update, specKalmanStep,
        KalmanFilterReg.stateVec, KalmanFilterReg.Pmat, KalmanFilterReg.Qmat,
        Matrix.dotProduct, Fin.sum_univ_two, Matrix.cons_val_zero,
        Matrix.cons_val_one, Matrix.vecHead, Matrix.vecTail, Function.comp]
  · simp only [KalmanFilterReg.update, Prod.mk.injEq]
    exact ⟨trivial, trivial, by ring⟩

/-- Positive semi-definiteness (with symmetry) of the 2x2 matrix
`[[a, b], [b2, c]]`, stated as the nonnegativity of the quadratic form
`zᵗ M z` for every vector `z = (u, v)`. -/
def PosSemidef2 (a b b2 c : ℚ) : Prop :=
  b2 = b ∧ ∀ u v : ℚ, 0 ≤ a * u ^ 2 + (b + b2) * (u * v) + c * v ^ 2

lemma posSemidef2_iff (a b b2 c : ℚ) :
    PosSemidef2 a b b2 c ↔ b2 = b ∧ 0 ≤ a ∧ 0 ≤ c ∧ b ^ 2 ≤ a * c := by
  constructor
  · rintro ⟨hb, h⟩
    rw [hb] at h
    have ha : 0 ≤ a := by have := h 1 0; nlinarith
    have hc : 0 ≤ c := by have := h 0 1; nlinarith
    refine ⟨hb, ha, hc, ?_⟩
    rcases eq_or_lt_of_le ha with ha0 | ha0
    · have hb0 : b = 0 := by
        by_contra hb0
        have h1 := h (-(c + 1) / (2 * b)) 1
        have h2 : (b + b) * (-(c + 1) / (2 * b) * 1) = -(c + 1) := by
          field_simp
          ring
        rw [← ha0] at h1
        nlinarith [h1, h2]
      rw [hb0, ← ha0]
      norm_num
    · have hb2 := h b (-a)
      nlinarith
  · rintro ⟨hb, ha, hc, hd⟩
    refine ⟨hb, fun u v => ?_⟩
    rw [hb]
    rcases eq_or_lt_of_le ha with ha0 | ha0
    · have hb0 : b = 0 := by nlinarith
      rw [hb0, ← ha0]
      nlinarith [mul_nonneg hc (sq_nonneg v)]
    · nlinarith [sq_nonneg (a * u + b * v),
        mul_nonneg (sub_nonneg.mpr hd) (sq_nonneg v)]

/-- The invariant carried through a run of the filter: `P` is symmetric
positive semi-definite, `Q` is symmetric positive semi-definite, and the
measurement noise is strictly positive. -/
def KFGood (kf : KalmanFilterReg) : Prop :=
  PosSemidef2 kf.p00 kf.p01 kf.p10 kf.p11 ∧
    PosSemidef2 kf.q00 kf.q01 kf.q10 kf.q11 ∧ 0 < kf.r

lemma kfGood_init (delta R : ℚ) (hd : 0 ≤ delta) (hR : 0 < R) :
    KFGood (KalmanFilterReg.init delta R) := by
  refine ⟨⟨rfl, fun u v => ?_⟩, ⟨rfl, fun u v => ?_⟩, hR⟩ <;>
    · simp only [KalmanFilterReg.init]
      nlinarith [sq_nonneg u, sq_nonneg v]

lemma psd2_sum (kf : KalmanFilterReg) (h : KFGood kf) :
    PosSemidef2 (kf.p00 + kf.q00) (kf.p01 + kf.q01) (kf.p10 + kf.q10)
      (kf.p11 + kf.q11) := by
  obtain ⟨⟨hpb, hp⟩, ⟨hqb, hq⟩, -⟩ := h
  refine ⟨by rw [hpb, hqb], fun u v => ?_⟩
  have h1 := hp u v
  have h2 := hq u v
  nlinarith

lemma innovVar_pos_of_good (kf : KalmanFilterReg) (x : ℚ) (h : KFGood kf) :
    0 < kf.innovVar x := by
  have hs := psd2_sum kf h
  have hq := hs.2 x 1
  have hr := h.2.2
  simp only [KalmanFilterReg.innovVar]
  nlinarith

lemma quad_nonneg (A B C x : ℚ) (hA : 0 ≤ A) (hC : 0 ≤ C) (hD : B ^ 2 ≤ A * C) :
    0 ≤ A * x ^ 2 + (B + B) * x + C := by
  rcases eq_or_lt_of_le hA with hA0 | hA0
  · have hB0 : B = 0 := by nlinarith
    rw [hB0, ← hA0]
    nlinarith
  · nlinarith [sq_nonneg (A * x + B)]

lemma psd2_step (A B C r x S : ℚ) (hA : 0 ≤ A) (hC : 0 ≤ C)
    (hD : B ^ 2 ≤ A * C) (hr : 0 < r)
    (hSval : S = A * x ^ 2 + (B + B) * x + C + r) :
    (0 - ((B * x + C * 1) / S) * x) * A + (1 - ((B * x + C * 1) / S) * 1) * B =
      (1 - ((A * x + B * 1) / S) * x) * B + (0 - ((A * x + B * 1) / S) * 1) * C ∧
    0 ≤ (1 - ((A * x + B * 1) / S) * x) * A + (0 - ((A * x + B * 1) / S) * 1) * B ∧
    0 ≤ (0 - ((B * x + C * 1) / S) * x) * B + (1 - ((B * x + C * 1) / S) * 1) * C ∧
    ((1 - ((A * x + B * 1) / S) * x) * B + (0 - ((A * x + B * 1) / S) * 1) * C) ^ 2 ≤
      ((1 - ((A * x + B * 1) / S) * x) * A + (0 - ((A * x + B * 1) / S) * 1) * B) *
        ((0 - ((B * x + C * 1) / S) * x) * B + (1 - ((B * x + C * 1) / S) * 1) * C) := by
  have hS : 0 < S := by
    rw [hSval]
    have := quad_nonneg A B C x hA hC hD
    linarith
  have hSne : S ≠ 0 := ne_of_gt hS
  have e01 : (1 - ((A * x + B * 1) / S) * x) * B + (0 - ((A * x + B * 1) / S) * 1) * C =
      (B * S - (A * x + B) * (B * x + C)) / S := by
    field_simp
    ring
  have e10 : (0 - ((B * x + C * 1) / S) * x) * A + (1 - ((B * x + C * 1) / S) * 1) * B =
      (B * S - (A * x + B) * (B * x + C)) / S := by
    field_simp
    ring
  have e00 : (1 - ((A * x + B * 1) / S) * x) * A + (0 - ((A * x + B * 1) / S) * 1) * B =
      ((A * C - B ^ 2) + A * r) / S := by
    rw [hSval]
    have h : A * x ^ 2 + (B + B) * x + C + r ≠ 0 := by rw [← hSval]; exact hSne
    field_simp
    ring
  have e11 : (0 - ((B * x + C * 1) / S) * x) * B + (1 - ((B * x + C * 1) / S) * 1) * C =
      ((A * C - B ^ 2) * x ^ 2 + C * r) / S := by
    rw [hSval]
    have h : A * x ^ 2 + (B + B) * x + C + r ≠ 0 := by rw [← hSval]; exact hSne
    field_simp
    ring
  refine ⟨by rw [e01, e10], ?_, ?_, ?_⟩
  · rw [e00]
    apply div_nonneg _ hS.le
    nlinarith
  · rw [e11]
    apply div_nonneg _ hS.le
    nlinarith [sq_nonneg x]
  · rw [e00, e01, e11]
    rw [div_pow, div_mul_div_comm, div_le_div_iff (by positivity) (by positivity)]
    have key : (A * C - B ^ 2 + A * r) * ((A * C - B ^ 2) * x ^ 2 + C * r) * S ^ 2 -
        (B * S - (A * x + B) * (B * x + C)) ^ 2 * (S * S) =
        ((A * C - B ^ 2) * r * S) * S ^ 2 := by
      rw [hSval]
      ring
    have pos : 0 ≤ ((A * C - B ^ 2) * r * S) * S ^ 2 :=
      mul_nonneg (mul_nonneg (mul_nonneg (sub_nonneg.mpr hD) hr.le) hS.le) (sq_nonneg S)
    linarith [key, pos]

lemma update_preserves_good (kf : KalmanFilterReg) (x y : ℚ) (h : KFGood kf) :
    KFGood ((kf.update x y).1) := by
  obtain ⟨hP, hQ, hr⟩ := h
  have hsum := psd2_sum kf ⟨hP, hQ, hr⟩
  rw [posSemidef2_iff] at hsum
  obtain ⟨hb2, hA, hC, hD⟩ := hsum
  refine ⟨?_, hQ, hr⟩
  simp only [KalmanFilterReg.update]
  rw [posSemidef2_iff]
  rw [hb2]
  have hSval : kf.innovVar x = (kf.p00 + kf.q00) * x ^ 2 +
      ((kf.p01 + kf.q01) + (kf.p01 + kf.q01)) * x + (kf.p11 + kf.q11) + kf.r := by
    simp only [KalmanFilterReg.innovVar]
    rw [hb2]
    ring
  exact psd2_step (kf.p00 + kf.q00) (kf.p01 + kf.q01) (kf.p11 + kf.q11) kf.r x
    (kf.innovVar x) hA hC hD hr hSval

/-- Running the filter over a list of observations `(x, y)`, updating once per
observation, as the backtest loop does. -/
def runKF (kf : KalmanFilterReg) (obs : List (ℚ × ℚ)) : KalmanFilterReg :=
  obs.foldl (fun k o => (k.update o.1 o.2).1) kf

lemma runKF_good (kf : KalmanFilterReg) (obs : List (ℚ × ℚ)) (h : KFGood kf) :
    KFGood (runKF kf obs) := by
  induction obs generalizing kf with
  | nil => exact h
  | cons o rest ih => exact ih _ (update_preserves_good kf o.1 o.2 h)

/-- Claim C7: under exact arithmetic, for every `delta ≥ 0`, `R > 0` and every finite
observation sequence, the covariance `P` — initialized to the identity and
transformed by each `update` via `P ← P + Q` and `P ← (I - K·H)·P` — stays
symmetric positive semi-definite after every update call. -/
theorem covariance_stays_psd (delta R : ℚ) (hd : 0 ≤ delta) (hR : 0 < R)
    (obs : List (ℚ × ℚ)) :
    PosSemidef2 (runKF (KalmanFilterReg.init delta R) obs).p00
      (runKF (KalmanFilterReg.init delta R) obs).p01
      (runKF (KalmanFilterReg.init delta R) obs).p10
      (runKF (KalmanFilterReg.init delta R) obs).p11 :=
  (runKF_good _ obs (kfGood_init delta R hd hR)).1

/-- Witness for `covariance_stays_psd` at the source defaults
`delta = 1e-5`, `R = 1e-3` and one observation. -/
theorem covariance_stays_psd_witness :
    0 ≤ (1 / 100000 : ℚ) ∧ 0 < (1 / 1000 : ℚ) ∧
      PosSemidef2
        (runKF (KalmanFilterReg.init (1 / 100000) (1 / 1000)) [(1, 2)]).p00
        (runKF (KalmanFilterReg.init (1 / 100000) (1 / 1000)) [(1, 2)]).p01
        (runKF (KalmanFilterReg.init (1 / 100000) (1 / 1000)) [(1, 2)]).p10
        (runKF (KalmanFilterReg.init (1 / 100000) (1 / 1000)) [(1, 2)]).p11 :=
  ⟨by norm_num, by norm_num,
    covariance_stays_psd (1 / 100000) (1 / 1000) (by norm_num) (by norm_num)
      [(1, 2)]⟩

/-- Claim C8: with `R > 0` (and `delta ≥ 0`), at every call on the states the filter
actually reaches, the innovation variance `S = H·(P+Q)·Hᵗ + R` that `update`
divides by is strictly positive; hence the gain division is well-defined, and
`S = 0` is impossible unless the configuration is degenerate (`R ≤ 0`). -/
theorem innovation_variance_pos (delta R : ℚ) (hd : 0 ≤ delta) (hR : 0 < R)
    (obs : List (ℚ × ℚ)) (x : ℚ) :
    0 < (runKF (KalmanFilterReg.init delta R) obs).innovVar x :=
  innovVar_pos_of_good _ x (runKF_good _ obs (kfGood_init delta R hd hR))

/-- Witness for `innovation_variance_pos` at the source defaults and one
observation. -/
theorem innovation_variance_pos_witness :
    0 ≤ (1 / 100000 : ℚ) ∧ 0 < (1 / 1000 : ℚ) ∧
      0 < (runKF (KalmanFilterReg.init (1 / 100000) (1 / 1000))
            [(1, 2)]).innovVar 3 :=
  ⟨by norm_num, by norm_num,
    innovation_variance_pos (1 / 100000) (1 / 1000) (by norm_num) (by norm_num)
      [(1, 2)] 3⟩

/-- Mean of a list of rationals, `sum / len`, as `np.mean` computes it. -/
def listMean (l : List ℚ) : ℚ := l.sum / l.length

/-- Population variance — the square of `np.std(l)` with numpy's default
`ddof = 0`: mean of the squared deviations from the mean, divisor `n`. -/
def popVar (l : List ℚ) : ℚ :=
  (l.map (fun v => (v - listMean l) ^ 2)).sum / l.length

/-- Bessel-corrected sample variance, divisor `n - 1`: the square of the
sample standard deviation in the claim's sense.  Comparison definition
written from the specification's words; the source computes `popVar`. -/
def sampleVar (l : List ℚ) : ℚ :=
  (l.map (fun v => (v - listMean l) ^ 2)).sum / ((l.length - 1 : ℕ) : ℚ)

/-- Population variance in moments form, `mean of squares - square of mean`;
used to state the amended rolling-deviation property independently of
`popVar`. -/
def popVarMoments (l : List ℚ) : ℚ :=
  (l.map (fun v => v ^ 2)).sum / l.length - listMean l ^ 2

/-- Python's trailing slice `l[-n:]`: the last `n` elements of the list. -/
def lastN (n : ℕ) (l : List ℚ) : List ℚ := l.drop (l.length - n)

/-- Rolling standard deviation of `Backtester.run` (src/src/backtester.py):
`std_spread = 1.0` while fewer than 30 residuals have been observed, else
`np.std(spreads[-30:])`, i.e. the real square root of the population
variance of the trailing 30 residuals. -/
noncomputable def stdSpread (spreads : List ℚ) : ℝ :=
  if spreads.length < 30 then 1
  else Real.sqrt ((popVar (lastN 30 spreads) : ℚ) : ℝ)

lemma sum_sq_dev (m : ℚ) (l : List ℚ) :
    (l.map (fun v => (v - m) ^ 2)).sum =
      (l.map (fun v => v ^ 2)).sum - 2 * m * l.sum + l.length * m ^ 2 := by
  induction l with
  | nil => simp
  | cons a t ih =>
    simp only [List.map_cons, List.sum_cons, List.length_cons, ih]
    push_cast
    ring

lemma popVar_eq_moments (l : List ℚ) (hl : l.length ≠ 0) :
    popVar l = popVarMoments l := by
  have hn : ((l.length : ℚ)) ≠ 0 := Nat.cast_ne_zero.mpr hl
  simp only [popVar, popVarMoments, listMean, sum_sq_dev (l.sum / l.length) l]
  field_simp
  ring

/-- Claim C2, counterexample: on a residual history of 30 values — fifteen
`0`s then fifteen `2`s — the code's `std_spread` is the population standard
deviation `1`, not the Bessel-corrected sample standard deviation
`sqrt(30/29)` of the trailing 30 residuals. -/
theorem stdSpread_ne_sample_std :
    stdSpread (List.replicate 15 (0 : ℚ) ++ List.replicate 15 2) ≠
      Real.sqrt ((sampleVar (lastN 30
        (List.replicate 15 (0 : ℚ) ++ List.replicate 15 2)) : ℚ) : ℝ) := by
  have hlast : lastN 30 (List.replicate 15 (0 : ℚ) ++ List.replicate 15 2) =
      List.replicate 15 (0 : ℚ) ++ List.replicate 15 2 := by
    norm_num [lastN]
  have hpop : popVar (lastN 30 (List.replicate 15 (0 : ℚ) ++
      List.replicate 15 2)) = 1 := by
    rw [hlast]
    norm_num [popVar, listMean, List.map_append, List.map_replicate,
      List.sum_append, List.sum_replicate, List.length_append,
      List.length_replicate, nsmul_eq_mul]
  have hsamp : sampleVar (lastN 30 (List.replicate 15 (0 : ℚ) ++
      List.replicate 15 2)) = 30 / 29 := by
    rw [hlast]
    norm_num [sampleVar, listMean, List.map_append, List.map_replicate,
      List.sum_append, List.sum_replicate, List.length_append,
      List.length_replicate, nsmul_eq_mul]
  have hlhs : stdSpread (List.replicate 15 (0 : ℚ) ++ List.replicate 15 2) = 1 := by
    rw [stdSpread, if_neg (by norm_num), hpop]
    norm_num [Real.sqrt_one]
  rw [hlhs, hsamp]
  have h1 : (1 : ℝ) < Real.sqrt ((30 / 29 : ℚ) : ℝ) := by
    have : Real.sqrt 1 < Real.sqrt ((30 / 29 : ℚ) : ℝ) :=
      Real.sqrt_lt_sqrt (by norm_num) (by norm_num)
    simpa [Real.sqrt_one] using this
  exact ne_of_lt h1

/-- Claim C2, amended: `std_spread` equals `1` while fewer than 30 residuals
have been observed, and from the 30th residual onward it equals the
population standard deviation (divisor 30, numpy's `np.std` default) of the
most recent 30 residuals — here stated through the independent moments form
of the population variance. -/
theorem stdSpread_eq_population_std (spreads : List ℚ) :
    stdSpread spreads =
      if spreads.length < 30 then 1
      else Real.sqrt ((popVarMoments (lastN 30 spreads) : ℚ) : ℝ) := by
  by_cases h : spreads.length < 30
  · simp [stdSpread, h]
  · have hlen : (lastN 30 spreads).length = 30 := by
      simp only [lastN, List.length_drop]
      omega
    rw [stdSpread, if_neg h, if_neg h,
      popVar_eq_moments (lastN 30 spreads) (by rw [hlen]; norm_num)]

/-- Mean-reversion position logic of `Backtester.run`
(src/src/backtester.py): from `position = 0`, enter short on
`z_score > entry_threshold`, enter long on `z_score < -entry_threshold`;
from `position = 1`, exit on `z_score >= -exit_threshold`; from
`position = -1`, exit on `z_score <= exit_threshold`.  Generic in the
ordered field carrying the z-score (`ℚ` in tests, `ℝ` in the run, where the
z-score involves a square root). -/
def nextPosition {α : Type} [LinearOrderedField α] (pos : ℤ)
    (z entry exitT : α) : ℤ :=
  if pos = 0 then
    if z > entry then -1
    else if z < -entry then 1
    else pos
  else if pos = 1 then
    if z ≥ -exitT then 0 else pos
  else if pos = -1 then
    if z ≤ exitT then 0 else pos
  else pos

/-- Claim C3: the per-step position transition is the three-state machine
with entry strict and exit inclusive: from Flat (`0`), `z > entry` goes
short (`-1`) and `z < -entry` goes long (`1`), while `z` exactly at
`entry` or `-entry` stays flat; from Long (`1`), `z ≥ -exit` exits to flat,
else stays; from Short (`-1`), `z ≤ exit` (equality included) exits to
flat, else stays.  The tie cases use the configuration constraint
`0 ≤ entry` (the spec demands `entry > 0`). -/
theorem position_state_machine (z entry exitT : ℚ) (hentry : 0 ≤ entry) :
    (z > entry → nextPosition 0 z entry exitT = -1) ∧
    (z < -entry → nextPosition 0 z entry exitT = 1) ∧
    (z = entry → nextPosition 0 z entry exitT = 0) ∧
    (z = -entry → nextPosition 0 z entry exitT = 0) ∧
    (z ≥ -exitT → nextPosition 1 z entry exitT = 0) ∧
    (z < -exitT → nextPosition 1 z entry exitT = 1) ∧
    (z ≤ exitT → nextPosition (-1) z entry exitT = 0) ∧
    (z > exitT → nextPosition (-1) z entry exitT = -1) := by
  refine ⟨?_, ?_, ?_, ?_, ?_, ?_, ?_, ?_⟩ <;> intro h
  · simp [nextPosition, h]
  · have h1 : ¬ z > entry := by linarith
    simp [nextPosition, h, h1]
  · have h1 : ¬ z > entry := by linarith
    have h2 : ¬ z < -entry := by linarith
    simp [nextPosition, h1, h2]
  · have h1 : ¬ z > entry := by linarith
    have h2 : ¬ z < -entry := by linarith
    simp [nextPosition, h1, h2]
  · simp [nextPosition, h]
  · have h1 : ¬ z ≥ -exitT := by linarith
    simp [nextPosition, h1]
  · simp [nextPosition, h]
  · have h1 : ¬ z ≤ exitT := by linarith
    simp [nextPosition, h1]

/-- Witness for `position_state_machine` at `z = 0`, `entry = 2`,
`exit = 0`. -/
theorem position_state_machine_witness :
    0 ≤ (2 : ℚ) ∧
      (((0 : ℚ) > 2 → nextPosition 0 (0 : ℚ) 2 0 = -1) ∧
       ((0 : ℚ) < -2 → nextPosition 0 (0 : ℚ) 2 0 = 1) ∧
       ((0 : ℚ) = 2 → nextPosition 0 (0 : ℚ) 2 0 = 0) ∧
       ((0 : ℚ) = -2 → nextPosition 0 (0 : ℚ) 2 0 = 0) ∧
       ((0 : ℚ) ≥ -0 → nextPosition 1 (0 : ℚ) 2 0 = 0) ∧
       ((0 : ℚ) < -0 → nextPosition 1 (0 : ℚ) 2 0 = 1) ∧
       ((0 : ℚ) ≤ 0 → nextPosition (-1) (0 : ℚ) 2 0 = 0) ∧
       ((0 : ℚ) > 0 → nextPosition (-1) (0 : ℚ) 2 0 = -1)) :=
  ⟨by norm_num, position_state_machine 0 2 0 (by norm_num)⟩

/-- Loop state of `Backtester.run` (src/src/backtester.py): the filter, the
growing residual history `spreads`, the current position, and the three
output lists `equity_curve`, `hedge_ratios`, `z_scores`. -/
structure BtState where
  kf : KalmanFilterReg
  spreads : List ℚ
  position : ℤ
  equity : List ℚ
  hedges : List ℚ
  zs : List ℝ

/-- Initial loop state: `Backtester.__init__` sets `position = 0`,
`equity_curve = []` and constructs `KalmanFilterReg()` (source defaults
`delta = 1e-5`, `R = 1e-3`; parametrized here); `run` starts its local
lists empty. -/
def initBt (delta R : ℚ) : BtState :=
  ⟨KalmanFilterReg.init delta R, [], 0, [], [], []⟩

/-- Equity value appended at row `i` (src/src/backtester.py, mark-to-market
step): on the first row `100000.0`; afterwards the previous equity plus
`prev_position * ((y - y_prev) - beta * (x - x_prev))` with the current
row's `beta`. -/
def stepEquityVal (data : List (ℚ × ℚ)) (st : BtState) (i : ℕ) : ℚ :=
  if 0 < st.equity.length then
    st.equity.getLastD 0 + (st.position : ℚ) *
      (((data.getD i (0, 0)).2 - (data.getD (i - 1) (0, 0)).2) -
        (st.kf.update (data.getD i (0, 0)).1 (data.getD i (0, 0)).2).2.1 *
          ((data.getD i (0, 0)).1 - (data.getD (i - 1) (0, 0)).1))
  else 100000

/-- One iteration of the `for t, row in self.data.iterrows()` loop of
`Backtester.run`, at row index `i`: update the filter, append the residual,
compute `std_spread` and the z-score, step the position state machine (on
the position held before the step; its previous value is what the
mark-to-market uses), and append equity, hedge ratio and z-score. -/
noncomputable def processRow (entry exitT : ℚ) (data : List (ℚ × ℚ))
    (st : BtState) (i : ℕ) : BtState :=
  let x_price := (data.getD i (0, 0)).1
  let y_price := (data.getD i (0, 0)).2
  let u := st.kf.update x_price y_price
  let beta := u.2.1
  let spread_error := u.2.2.2
  let spreads : List ℚ := st.spreads ++ [spread_error]
  let std_spread : ℝ := stdSpread spreads
  let z_score : ℝ :=
    if std_spread > 0 then (spread_error : ℝ) / std_spread else 0
  let position : ℤ := nextPosition st.position z_score (entry : ℝ) (exitT : ℝ)
  let curr_equity : ℚ := stepEquityVal data st i
  ⟨u.1, spreads, position, st.equity ++ [curr_equity],
    st.hedges ++ [beta], st.zs ++ [z_score]⟩

/-- First `n` iterations of the `Backtester.run` loop. -/
noncomputable def runUpTo (delta R entry exitT : ℚ) (data : List (ℚ × ℚ))
    (n : ℕ) : BtState :=
  (List.range n).foldl (processRow entry exitT data) (initBt delta R)

/-- Full `Backtester.run()`: one loop iteration per input row; the returned
DataFrame is the triple of lists `equity`, `hedges`, `zs`. -/
noncomputable def runBt (delta R entry exitT : ℚ)
    (data : List (ℚ × ℚ)) : BtState :=
  runUpTo delta R entry exitT data data.length

lemma runUpTo_succ (delta R entry exitT : ℚ) (data : List (ℚ × ℚ)) (n : ℕ) :
    runUpTo delta R entry exitT data (n + 1) =
      processRow entry exitT data (runUpTo delta R entry exitT data n) n := by
  simp [runUpTo, List.range_succ]

lemma processRow_equity (entry exitT : ℚ) (data : List (ℚ × ℚ))
    (st : BtState) (i : ℕ) :
    (processRow entry exitT data st i).equity =
      st.equity ++ [stepEquityVal data st i] := rfl

lemma processRow_hedges (entry exitT : ℚ) (data : List (ℚ × ℚ))
    (st : BtState) (i : ℕ) :
    (processRow entry exitT data st i).hedges =
      st.hedges ++
        [(st.kf.update (data.getD i (0, 0)).1 (data.getD i (0, 0)).2).2.1] :=
  rfl

lemma runUpTo_lengths (delta R entry exitT : ℚ) (data : List (ℚ × ℚ))
    (n : ℕ) :
    (runUpTo delta R entry exitT data n).equity.length = n ∧
    (runUpTo delta R entry exitT data n).hedges.length = n ∧
    (runUpTo delta R entry exitT data n).zs.length = n ∧
    (runUpTo delta R entry exitT data n).spreads.length = n := by
  induction n with
  | zero => simp [runUpTo, initBt]
  | succ n ih =>
    rw [runUpTo_succ]
    simp only [processRow, List.length_append, List.length_singleton]
    exact ⟨by rw [ih.1], by rw [ih.2.1], by rw [ih.2.2.1], by rw [ih.2.2.2]⟩

lemma getD_concat_self (l : List ℚ) (a d : ℚ) :
    (l ++ [a]).getD l.length d = a := by
  induction l with
  | nil => rfl
  | cons b t ih => simpa using ih

lemma getLastD_eq_getD (l : List ℚ) (d : ℚ) :
    l.getLastD d = l.getD (l.length - 1) d := by
  induction l with
  | nil => rfl
  | cons b t ih =>
    cases t with
    | nil => rfl
    | cons c t' => simpa [List.getLastD] using ih

lemma runUpTo_stable (delta R entry exitT : ℚ) (data : List (ℚ × ℚ)) :
    ∀ m n, n ≤ m → ∀ i, i < n →
      (runUpTo delta R entry exitT data m).equity.getD i 0 =
        (runUpTo delta R entry exitT data n).equity.getD i 0 ∧
      (runUpTo delta R entry exitT data m).hedges.getD i 0 =
        (runUpTo delta R entry exitT data n).hedges.getD i 0 := by
  intro m
  induction m with
  | zero =>
    intro n hn i hi
    omega
  | succ m ih =>
    intro n hn i hi
    rcases Nat.eq_or_lt_of_le hn with rfl | hlt
    · exact ⟨rfl, rfl⟩
    · have hn' : n ≤ m := Nat.lt_succ_iff.mp hlt
      have hi' : i < m := lt_of_lt_of_le hi hn'
      rw [runUpTo_succ, processRow_equity, processRow_hedges,
        List.getD_append _ _ _ _ (by
          rw [(runUpTo_lengths delta R entry exitT data m).1]; exact hi'),
        List.getD_append _ _ _ _ (by
          rw [(runUpTo_lengths delta R entry exitT data m).2.1]; exact hi')]
      exact ih n hn' i hi

/-- Claim C4: equity on the first processed step is exactly `100000`
regardless of prices; on every later step `t` the recorded equity is the
previous step's equity plus `position-held-entering-the-step *
((y(t) - y(t-1)) - beta(t) * (x(t) - x(t-1)))`, where the position is the
one before this step's transition (`(runUpTo ... t).position`) and `beta(t)`
is the freshly updated hedge ratio recorded at step `t`; in particular with
position `1`, `beta = 3/2`, `dY = 2`, `dX = 1` the equity rises by exactly
`1/2`. -/
theorem equity_mark_to_market (delta R entry exitT : ℚ) (data : List (ℚ × ℚ))
    (t : ℕ) (ht : t < data.length) :
    (t = 0 → (runBt delta R entry exitT data).equity.getD 0 0 = 100000) ∧
    (1 ≤ t →
      ((runBt delta R entry exitT data).equity.getD t 0 =
        (runBt delta R entry exitT data).equity.getD (t - 1) 0 +
          ((runUpTo delta R entry exitT data t).position : ℚ) *
            (((data.getD t (0, 0)).2 - (data.getD (t - 1) (0, 0)).2) -
              (runBt delta R entry exitT data).hedges.getD t 0 *
                ((data.getD t (0, 0)).1 - (data.getD (t - 1) (0, 0)).1))) ∧
      ((runUpTo delta R entry exitT data t).position = 1 →
        (runBt delta R entry exitT data).hedges.getD t 0 = 3 / 2 →
        (data.getD t (0, 0)).2 - (data.getD (t - 1) (0, 0)).2 = 2 →
        (data.getD t (0, 0)).1 - (data.getD (t - 1) (0, 0)).1 = 1 →
        (runBt delta R entry exitT data).equity.getD t 0 =
          (runBt delta R entry exitT data).equity.getD (t - 1) 0 + 1 / 2)) := by
  have hst := runUpTo_stable delta R entry exitT data
  constructor
  · intro ht0
    subst ht0
    have h1 : (runBt delta R entry exitT data).equity.getD 0 0 =
        (runUpTo delta R entry exitT data 1).equity.getD 0 0 :=
      (hst data.length 1 (by omega) 0 (by omega)).1
    rw [h1]
    have h2 : runUpTo delta R entry exitT data 1 =
        processRow entry exitT data (initBt delta R) 0 := by
      rw [show (1 : ℕ) = 0 + 1 from rfl, runUpTo_succ]
      rfl
    rw [h2, processRow_equity]
    rfl
  · intro ht1
    have hlen := (runUpTo_lengths delta R entry exitT data t).1
    have hlenh := (runUpTo_lengths delta R entry exitT data t).2.1
    have hA : (runBt delta R entry exitT data).equity.getD t 0 =
        (runUpTo delta R entry exitT data (t + 1)).equity.getD t 0 :=
      (hst data.length (t + 1) (by omega) t (by omega)).1
    have hB : (runBt delta R entry exitT data).hedges.getD t 0 =
        (runUpTo delta R entry exitT data (t + 1)).hedges.getD t 0 :=
      (hst data.length (t + 1) (by omega) t (by omega)).2
    have hC : (runBt delta R entry exitT data).equity.getD (t - 1) 0 =
        (runUpTo delta R entry exitT data t).equity.getD (t - 1) 0 :=
      (hst data.length t (by omega) (t - 1) (by omega)).1
    have hHedge : (runBt delta R entry exitT data).hedges.getD t 0 =
        ((runUpTo delta R entry exitT data t).kf.update
          (data.getD t (0, 0)).1 (data.getD t (0, 0)).2).2.1 := by
      rw [hB, runUpTo_succ, processRow_hedges]
      have h := getD_concat_self ((runUpTo delta R entry exitT data t).hedges)
        (((runUpTo delta R entry exitT data t).kf.update
          (data.getD t (0, 0)).1 (data.getD t (0, 0)).2).2.1) 0
      rwa [hlenh] at h
    have hpos : 0 < (runUpTo delta R entry exitT data t).equity.length := by
      rw [hlen]
      omega
    have hstep : (runUpTo delta R entry exitT data (t + 1)).equity.getD t 0 =
        stepEquityVal data (runUpTo delta R entry exitT data t) t := by
      rw [runUpTo_succ, processRow_equity]
      have h := getD_concat_self ((runUpTo delta R entry exitT data t).equity)
        (stepEquityVal data (runUpTo delta R entry exitT data t) t) 0
      rwa [hlen] at h
    have hlast : (runUpTo delta R entry exitT data t).equity.getLastD 0 =
        (runUpTo delta R entry exitT data t).equity.getD (t - 1) 0 := by
      rw [getLastD_eq_getD, hlen]
    have main : (runBt delta R entry exitT data).equity.getD t 0 =
        (runBt delta R entry exitT data).equity.getD (t - 1) 0 +
          ((runUpTo delta R entry exitT data t).position : ℚ) *
            (((data.getD t (0, 0)).2 - (data.getD (t - 1) (0, 0)).2) -
              (runBt delta R entry exitT data).hedges.getD t 0 *
                ((data.getD t (0, 0)).1 - (data.getD (t - 1) (0, 0)).1)) := by
      rw [hA, hstep, hHedge, hC]
      simp only [stepEquityVal, if_pos hpos]
      rw [hlast]
    refine ⟨main, fun hp hb hdy hdx => ?_⟩
    rw [main, hp, hb, hdy, hdx]
    push_cast
    ring

/-- Witness for `equity_mark_to_market` at a two-row series and `t = 1`. -/
theorem equity_mark_to_market_witness :
    (1 : ℕ) < ([((1 : ℚ), (1 : ℚ)), (2, 3)] : List (ℚ × ℚ)).length ∧
    (((1 : ℕ) = 0 →
      (runBt (1 / 100000) (1 / 1000) 2 0
        [((1 : ℚ), (1 : ℚ)), (2, 3)]).equity.getD 0 0 = 100000) ∧
    (1 ≤ (1 : ℕ) →
      ((runBt (1 / 100000) (1 / 1000) 2 0
          [((1 : ℚ), (1 : ℚ)), (2, 3)]).equity.getD 1 0 =
        (runBt (1 / 100000) (1 / 1000) 2 0
          [((1 : ℚ), (1 : ℚ)), (2, 3)]).equity.getD (1 - 1) 0 +
          ((runUpTo (1 / 100000) (1 / 1000) 2 0
              [((1 : ℚ), (1 : ℚ)), (2, 3)] 1).position : ℚ) *
            (((([((1 : ℚ), (1 : ℚ)), (2, 3)] : List (ℚ × ℚ)).getD 1 (0, 0)).2 -
                (([((1 : ℚ), (1 : ℚ)), (2, 3)] : List (ℚ × ℚ)).getD (1 - 1) (0, 0)).2) -
              (runBt (1 / 100000) (1 / 1000) 2 0
                  [((1 : ℚ), (1 : ℚ)), (2, 3)]).hedges.getD 1 0 *
                ((([((1 : ℚ), (1 : ℚ)), (2, 3)] : List (ℚ × ℚ)).getD 1 (0, 0)).1 -
                  (([((1 : ℚ), (1 : ℚ)), (2, 3)] : List (ℚ × ℚ)).getD (1 - 1) (0, 0)).1))) ∧
      ((runUpTo (1 / 100000) (1 / 1000) 2 0
          [((1 : ℚ), (1 : ℚ)), (2, 3)] 1).position = 1 →
        (runBt (1 / 100000) (1 / 1000) 2 0
          [((1 : ℚ), (1 : ℚ)), (2, 3)]).hedges.getD 1 0 = 3 / 2 →
        (([((1 : ℚ), (1 : ℚ)), (2, 3)] : List (ℚ × ℚ)).getD 1 (0, 0)).2 -
          (([((1 : ℚ), (1 : ℚ)), (2, 3)] : List (ℚ × ℚ)).getD (1 - 1) (0, 0)).2 = 2 →
        (([((1 : ℚ), (1 : ℚ)), (2, 3)] : List (ℚ × ℚ)).getD 1 (0, 0)).1 -
          (([((1 : ℚ), (1 : ℚ)), (2, 3)] : List (ℚ × ℚ)).getD (1 - 1) (0, 0)).1 = 1 →
        (runBt (1 / 100000) (1 / 1000) 2 0
          [((1 : ℚ), (1 : ℚ)), (2, 3)]).equity.getD 1 0 =
          (runBt (1 / 100000) (1 / 1000) 2 0
            [((1 : ℚ), (1 : ℚ)), (2, 3)]).equity.getD (1 - 1) 0 + 1 / 2))) :=
  ⟨by norm_num,
    equity_mark_to_market (1 / 100000) (1 / 1000) 2 0
      [((1 : ℚ), (1 : ℚ)), (2, 3)] 1 (by norm_num)⟩

/-- Fields stored by `Backtester.__init__` (src/src/backtester.py). -/
structure Backtester where
  data : List (ℚ × ℚ)
  kf : KalmanFilterReg
  entry_threshold : ℚ
  exit_threshold : ℚ
  position : ℤ
  cash : ℚ
  equity_curve : List ℚ

/-- Constructor `Backtester.__init__(data, entry_threshold, exit_threshold)`:
copies the data, builds `KalmanFilterReg()` with the source defaults, stores
both thresholds unchanged, and initializes `position = 0`,
`cash = 100000.0`, `equity_curve = []`.  The source performs no checks. -/
def Backtester.init (d : List (ℚ × ℚ)) (entry exitT : ℚ) : Backtester :=
  ⟨d, KalmanFilterReg.init (1 / 100000) (1 / 1000), entry, exitT, 0, 100000, []⟩

/-- Claim C6, counterexample: construction with non-positive
`entry_threshold = -1` and negative `exit_threshold = -1` succeeds silently,
returning a fully formed engine with the invalid values stored — no
validation error is raised at construction time. -/
theorem backtester_init_accepts_bad_thresholds :
    Backtester.init [] (-1) (-1) =
      ⟨[], KalmanFilterReg.init (1 / 100000) (1 / 1000), -1, -1, 0, 100000,
        []⟩ ∧
    (Backtester.init [] (-1) (-1)).entry_threshold ≤ 0 ∧
    (Backtester.init [] (-1) (-1)).exit_threshold < 0 :=
  ⟨rfl, by norm_num [Backtester.init], by norm_num [Backtester.init]⟩

/-- Claim C6, amended: construction performs no validation of its numeric
configuration; any `entry_threshold` and `exit_threshold` values (including
non-positive entry and negative exit) are accepted and stored as given,
alongside the fixed initial portfolio state. -/
theorem backtester_init_stores_fields (d : List (ℚ × ℚ)) (entry exitT : ℚ) :
    (Backtester.init d entry exitT).entry_threshold = entry ∧
    (Backtester.init d entry exitT).exit_threshold = exitT ∧
    (Backtester.init d entry exitT).position = 0 ∧
    (Backtester.init d entry exitT).cash = 100000 ∧
    (Backtester.init d entry exitT).equity_curve = [] ∧
    (Backtester.init d entry exitT).data = d :=
  ⟨rfl, rfl, rfl, rfl, rfl, rfl⟩

/-- Claim C5, counterexample: on an input series with a single row — fewer
than 2 rows — the run does not fail and does not return an empty result: it
returns a one-row result series with equity `100000`. -/
theorem run_singleton_not_rejected :
    (runBt (1 / 100000) (1 / 1000) 2 0 [((1 : ℚ), (1 : ℚ))]).equity =
      [100000] ∧
    (runBt (1 / 100000) (1 / 1000) 2 0 [((1 : ℚ), (1 : ℚ))]).equity ≠
      ([] : List ℚ) := by
  have h1 : (runBt (1 / 100000) (1 / 1000) 2 0
      [((1 : ℚ), (1 : ℚ))]).equity = [100000] := rfl
  refine ⟨h1, ?_⟩
  rw [h1]
  simp

/-- Claim C5, amended: the run performs no data validation at all: for every
input series, including those with fewer than 2 rows, it completes normally
and returns a result series with exactly one row per input row. -/
theorem run_row_per_input (delta R entry exitT : ℚ) (data : List (ℚ × ℚ)) :
    (runBt delta R entry exitT data).equity.length = data.length ∧
    (runBt delta R entry exitT data).hedges.length = data.length ∧
    (runBt delta R entry exitT data).zs.length = data.length := by
  have h := runUpTo_lengths delta R entry exitT data data.length
  exact ⟨h.1, h.2.1, h.2.2.1⟩

/-- Claim C9: the backtest is deterministic — two runs on identical input
data and identical configuration (`delta`, `R`, `entry_threshold`,
`exit_threshold`) produce identical result series; the run is a pure
function of its inputs, with no hidden randomness. -/
theorem run_deterministic (d1 R1 e1 x1 : ℚ) (data1 : List (ℚ × ℚ))
    (d2 R2 e2 x2 : ℚ) (data2 : List (ℚ × ℚ))
    (hd : d1 = d2) (hR : R1 = R2) (he : e1 = e2) (hx : x1 = x2)
    (hdata : data1 = data2) :
    runBt d1 R1 e1 x1 data1 = runBt d2 R2 e2 x2 data2 := by
  rw [hd, hR, he, hx, hdata]

/-- Witness for `run_deterministic` at concrete equal inputs. -/
theorem run_deterministic_witness :
    runBt (1 / 100000) (1 / 1000) 2 0 [((1 : ℚ), (2 : ℚ))] =
      runBt (1 / 100000) (1 / 1000) 2 0 [((1 : ℚ), (2 : ℚ))] :=
  run_deterministic (1 / 100000) (1 / 1000) 2 0 [((1 : ℚ), (2 : ℚ))]
    (1 / 100000) (1 / 1000) 2 0 [((1 : ℚ), (2 : ℚ))] rfl rfl rfl rfl rfl

/-- Claim C10: on an empty input series the run raises no error and returns
an empty result series; on a one-row input series it raises no error and
returns a one-row result series whose equity entry is exactly `100000`
(no PnL is computed), for any thresholds and any row. -/
theorem run_short_series (delta R entry exitT a b : ℚ) :
    (runBt delta R entry exitT []).equity = [] ∧
    (runBt delta R entry exitT []).hedges = [] ∧
    (runBt delta R entry exitT []).zs = [] ∧
    (runBt delta R entry exitT [(a, b)]).equity = [100000] ∧
    (runBt delta R entry exitT [(a, b)]).hedges.length = 1 ∧
    (runBt delta R entry exitT [(a, b)]).zs.length = 1 := by
  refine ⟨rfl, rfl, rfl, ?_, ?_, ?_⟩
  · have h : runBt delta R entry exitT [(a, b)] =
        processRow entry exitT [(a, b)] (initBt delta R) 0 := by
      rw [runBt, show ([(a, b)] : List (ℚ × ℚ)).length = 0 + 1 from rfl,
        runUpTo_succ]
      rfl
    rw [h, processRow_equity]
    rfl
  · exact (runUpTo_lengths delta R entry exitT [(a, b)] 1).2.1
  · exact (runUpTo_lengths delta R entry exitT [(a, b)] 1).2.2.1
